import Mathlib

/-!
# borealis — SDL platform glue and descriptor slot allocation

A shallow embedding of `library/lib/platforms/sdl/sdl_platform.cpp`
(`SDLPlatform`) and of the descriptor slot counter declared in
`library/include/borealis/platforms/switch/switch_video.hpp`.

Calls into SDL are recorded, in program order, as values of a call type;
what SDL itself does with a call is outside the repository.
-/

namespace brls

/-! ## Window geometry setters -/

/-- Value received by an `int` parameter when a `uint32_t` argument is passed:
the two's-complement reading of the 32-bit pattern. It is the identity below
`2^31`. -/
def toInt32 (n : Nat) : Int :=
  if n % 2 ^ 32 < 2 ^ 31 then ((n % 2 ^ 32 : Nat) : Int)
  else ((n % 2 ^ 32 : Nat) : Int) - 2 ^ 32

/-- The SDL window calls issued by the geometry setters, with the `int`
arguments they receive (the window argument is always
`this->videoContext->getSDLWindow()`). -/
inductive SDLCall where
  | SDL_SetWindowSize (w h : Int)
  | SDL_SetWindowMinimumSize (w h : Int)
  | SDL_SetWindowMaximumSize (w h : Int)
  deriving DecidableEq, Repr

/-- Embedding of `SDLPlatform::setWindowSize`: the SDL calls it issues. -/
def setWindowSize (windowWidth windowHeight : Nat) : List SDLCall :=
  if windowWidth > 0 ∧ windowHeight > 0 then
    [SDLCall.SDL_SetWindowSize (toInt32 windowWidth) (toInt32 windowHeight)]
  else []

/-- Embedding of `SDLPlatform::setWindowSizeLimits`: two independent guarded
statements, the first issuing `SDL_SetWindowMinimumSize`, the second
`SDL_SetWindowMaximumSize`; the result is the list of calls issued, in order. -/
def setWindowSizeLimits (windowMinWidth windowMinHeight windowMaxWidth windowMaxHeight : Nat) :
    List SDLCall :=
  (if windowMinWidth > 0 ∧ windowMinHeight > 0 then
     [SDLCall.SDL_SetWindowMinimumSize (toInt32 windowMinWidth) (toInt32 windowMinHeight)]
   else []) ++
  (if (windowMaxWidth > 0 ∧ windowMaxHeight > 0) ∧
      (windowMaxWidth > windowMinWidth ∧ windowMaxHeight > windowMinHeight) then
     [SDLCall.SDL_SetWindowMaximumSize (toInt32 windowMaxWidth) (toInt32 windowMaxHeight)]
   else [])

/-- The call is a request to set the window's minimum size. -/
def SDLCall.isMinimumSize : SDLCall → Bool
  | .SDL_SetWindowMinimumSize _ _ => true
  | _ => false

/-- The call is a request to set the window's maximum size. -/
def SDLCall.isMaximumSize : SDLCall → Bool
  | .SDL_SetWindowMaximumSize _ _ => true
  | _ => false

/-! ## Platform object -/

/-- The fields of `SDLPlatform` the embedded functions read or write. A pointer
field is recorded by whether it is non-null. -/
structure SDLPlatform where
  locale : String
  appTitle : String
  audioPlayer : Bool
  videoContext : Bool
  inputManager : Bool
  imeManager : Bool
  deriving DecidableEq, Repr

/-! ## Locale selection in the constructor -/

/-- The locale name constants of `borealis/core/i18n.hpp`, which is not among
the sources: they are taken as parameters. -/
structure LocaleNames where
  LOCALE_AUTO : String
  LOCALE_EN_US : String
  LOCALE_ZH_HANS : String
  LOCALE_ZH_HANT : String
  LOCALE_JA : String
  LOCALE_Ko : String
  LOCALE_IT : String
  LOCALE_RU : String
  deriving DecidableEq, Repr

/-- An `SDL_Locale`: `language` is never null, `country` may be. -/
structure SDL_Locale where
  language : String
  country : Option String
  deriving DecidableEq, Repr

/-- The brace initialiser of `localeMap` in the constructor, in source order. -/
def localeMap (K : LocaleNames) : List (String × String) :=
  [ ("zh_CN", K.LOCALE_ZH_HANS),
    ("zh_TW", K.LOCALE_ZH_HANT),
    ("ja_JP", K.LOCALE_JA),
    ("ko_KR", K.LOCALE_Ko),
    ("it_IT", K.LOCALE_IT),
    ("ru", K.LOCALE_RU) ]

/-- The member `count` of `std::unordered_map`: 1 when the key is present, else 0. -/
def mapCount (m : List (String × String)) (key : String) : Nat :=
  if (m.lookup key).isSome then 1 else 0

/-- The value `m[key]` of `std::unordered_map`: the mapped value, or a
default-constructed (empty) string when the key is absent. -/
def mapIndex (m : List (String × String)) (key : String) : String :=
  (m.lookup key).getD ""

/-- The string `lang` built in the loop body: the language, followed by `"_"`
and the country when the country pointer is non-null. -/
def localeKey (l : SDL_Locale) : String :=
  match l.country with
  | some country => l.language ++ ("_" ++ country)
  | none => l.language

/-- The `for` loop over the preferred locales: the first entry whose key is
counted by the map assigns `this->locale` and leaves the loop. -/
def localeLoop (K : LocaleNames) : List SDL_Locale → String → String
  | [], locale => locale
  | l :: rest, locale =>
    if mapCount (localeMap K) (localeKey l) > 0 then mapIndex (localeMap K) (localeKey l)
    else localeLoop K rest locale

/-- Embedding of the constructor `SDLPlatform::SDLPlatform` (desktop build).
`sdlInit` is the result of `SDL_Init`, `appLocaleDefault` the value of
`Platform::APP_LOCALE_DEFAULT`, `locales` the array returned by
`SDL_GetPreferredLocales` (`none` for a null pointer; its length is
`numLocales`), and `self` the object as the base class left it. -/
def SDLPlatform.ctor (K : LocaleNames) (sdlInit : Bool) (appLocaleDefault : String)
    (locales : Option (List SDL_Locale)) (self : SDLPlatform) : SDLPlatform :=
  if !sdlInit then self
  else
    let self := { self with audioPlayer := true }
    if appLocaleDefault = K.LOCALE_AUTO then
      let locale1 :=
        match locales with
        | some ls => if ls.length > 0 then localeLoop K ls self.locale else self.locale
        | none => self.locale
      let locale2 := if locale1.isEmpty then K.LOCALE_EN_US else locale1
      { self with locale := locale2 }
    else self

/-- The keys of the mapping table. -/
def localeKeys (K : LocaleNames) : List String := (localeMap K).map Prod.fst

/-- The table value of the first entry of a preferred-locale list, in preference
order, whose key is a key of the mapping table; `none` when no entry has one. -/
def firstMapped (K : LocaleNames) (ls : List SDL_Locale) : Option String :=
  (ls.find? (fun l => decide (localeKey l ∈ localeKeys K))).bind
    (fun l => (localeMap K).lookup (localeKey l))

/-- A sample assignment of the locale name constants, used to instantiate the
theorems at a concrete input. -/
def sampleLocaleNames : LocaleNames :=
  { LOCALE_AUTO := "auto", LOCALE_EN_US := "en-US", LOCALE_ZH_HANS := "zh-Hans",
    LOCALE_ZH_HANT := "zh-Hant", LOCALE_JA := "ja", LOCALE_Ko := "ko", LOCALE_IT := "it",
    LOCALE_RU := "ru" }

/-- A platform object before construction: empty locale and title, null pointers. -/
def freshPlatform : SDLPlatform :=
  { locale := "", appTitle := "", audioPlayer := false, videoContext := false,
    inputManager := false, imeManager := false }

/-! ## Window creation and home directory -/

/-- Embedding of `SDLPlatform::createWindow`: stores the title and creates the
video context, the input manager and the IME manager. -/
def createWindow (self : SDLPlatform) (windowTitle : String) : SDLPlatform :=
  { self with appTitle := windowTitle, videoContext := true, inputManager := true,
              imeManager := true }

/-- What a C function sees of `s.c_str()`: the characters before the first NUL. -/
def c_str (s : String) : String := ⟨s.data.takeWhile (fun c => c != Char.ofNat 0)⟩

/-- Embedding of `SDLPlatform::getHomeDirectory`. `SDL_GetPrefPath org app` is the
SDL call (`org` is `none` for `nullptr`); its result is `none` for a null pointer.
The local `name` is computed as in the source and then not used. -/
def getHomeDirectory (SDL_GetPrefPath : Option String → String → Option String)
    (self : SDLPlatform) (appName : String) : Option String :=
  let name := self.appTitle
  let name := if !appName.isEmpty then appName else name
  let _ := name
  SDL_GetPrefPath none (c_str appName)

/-! ## Event pump -/

/-- The `SDL_EventType` enumerators the event pump tests for; `other` stands for
every remaining enumerator (its code is not interpreted). -/
inductive SDL_EventType where
  | SDL_EVENT_QUIT
  | SDL_EVENT_KEY_DOWN
  | SDL_EVENT_KEY_UP
  | SDL_EVENT_MOUSE_MOTION
  | SDL_EVENT_MOUSE_WHEEL
  | SDL_EVENT_GAMEPAD_SENSOR_UPDATE
  | SDL_EVENT_WILL_ENTER_BACKGROUND
  | SDL_EVENT_WILL_ENTER_FOREGROUND
  | SDL_EVENT_POLL_SENTINEL
  | other (code : Nat)
  deriving DecidableEq, Repr

/-- An `SDL_Event`: its `type` tag and the rest of the union, uninterpreted. -/
structure SDL_Event where
  type : SDL_EventType
  payload : Nat
  deriving DecidableEq, Repr

/-- Calls made by the event pump on its collaborators, with the event passed. -/
inductive Effect where
  | updateKeyboardState (event : SDL_Event)
  | updateMouseMotion (event : SDL_Event)
  | updateMouseWheel (event : SDL_Event)
  | updateControllerSensorsUpdate (event : SDL_Event)
  | windowFocusChangedFire (focused : Bool)
  | otherEventFire (event : SDL_Event)
  | SDL_WaitEventTimeout (timeout : Int)
  deriving DecidableEq, Repr

/-- Modelled from the spec: `Application` (`borealis/core/application.hpp`) is not
among the sources; `setActiveEvent` and `hasActiveEvent` are taken to write and
read one flag, the spec's "recent activity". `calls` is the list of collaborator
calls made so far, in program order. -/
structure World where
  activeEvent : Bool
  calls : List Effect
  deriving DecidableEq, Repr

/-- A call on the input manager, guarded by `if (manager)`. -/
def callManager (self : SDLPlatform) (call : Effect) (w : World) : World :=
  if self.inputManager then { w with calls := w.calls ++ [call] } else w

/-- Embedding of `SDLPlatform::processEvent`, arm by arm in source order
(the `SDL_EVENT_MOUSE_MOTION` test appears twice, as in the source). `ios` says
whether the two arms under `#ifdef IOS` are compiled in. -/
def processEvent (ios : Bool) (self : SDLPlatform) (event : SDL_Event) (w : World) :
    Bool × World :=
  if event.type = .SDL_EVENT_QUIT then
    (false, w)
  else
    let w1 :=
      if event.type = .SDL_EVENT_KEY_DOWN ∨ event.type = .SDL_EVENT_KEY_UP then
        callManager self (.updateKeyboardState event) w
      else if event.type = .SDL_EVENT_MOUSE_MOTION then
        callManager self (.updateMouseMotion event) w
      else if event.type = .SDL_EVENT_MOUSE_MOTION then
        callManager self (.updateMouseMotion event) w
      else if event.type = .SDL_EVENT_MOUSE_WHEEL then
        callManager self (.updateMouseWheel event) w
      else if event.type = .SDL_EVENT_GAMEPAD_SENSOR_UPDATE then
        callManager self (.updateControllerSensorsUpdate event) w
      else if ios = true ∧ event.type = .SDL_EVENT_WILL_ENTER_BACKGROUND then
        { w with calls := w.calls ++ [.windowFocusChangedFire false] }
      else if ios = true ∧ event.type = .SDL_EVENT_WILL_ENTER_FOREGROUND then
        { w with calls := w.calls ++ [.windowFocusChangedFire true] }
      else if event.type ≠ .SDL_EVENT_POLL_SENTINEL then
        { w with calls := w.calls ++ [.otherEventFire event] }
      else w
    (true, { w1 with activeEvent := true })

/-- The dispatch with a single mouse-motion arm, as the design note asks for:
the second `SDL_EVENT_MOUSE_MOTION` arm of `processEvent` is dropped, all else is
kept. -/
def processEventSingleArm (ios : Bool) (self : SDLPlatform) (event : SDL_Event) (w : World) :
    Bool × World :=
  if event.type = .SDL_EVENT_QUIT then
    (false, w)
  else
    let w1 :=
      if event.type = .SDL_EVENT_KEY_DOWN ∨ event.type = .SDL_EVENT_KEY_UP then
        callManager self (.updateKeyboardState event) w
      else if event.type = .SDL_EVENT_MOUSE_MOTION then
        callManager self (.updateMouseMotion event) w
      else if event.type = .SDL_EVENT_MOUSE_WHEEL then
        callManager self (.updateMouseWheel event) w
      else if event.type = .SDL_EVENT_GAMEPAD_SENSOR_UPDATE then
        callManager self (.updateControllerSensorsUpdate event) w
      else if ios = true ∧ event.type = .SDL_EVENT_WILL_ENTER_BACKGROUND then
        { w with calls := w.calls ++ [.windowFocusChangedFire false] }
      else if ios = true ∧ event.type = .SDL_EVENT_WILL_ENTER_FOREGROUND then
        { w with calls := w.calls ++ [.windowFocusChangedFire true] }
      else if event.type ≠ .SDL_EVENT_POLL_SENTINEL then
        { w with calls := w.calls ++ [.otherEventFire event] }
      else w
    (true, { w1 with activeEvent := true })

/-- Floating-point operations used to compute the wait timeout; their
semantics are left open. -/
structure FloatOps (F : Type) where
  mulInt : F → Int → F
  toInt : F → Int

/-- Outcome of one `mainLoopIteration`: the returned flag, the world afterwards,
the events on which `processEvent` was called (in order) and the events still
queued. -/
structure Iteration where
  ret : Bool
  world : World
  handed : List SDL_Event
  pending : List SDL_Event
  deriving DecidableEq, Repr

/-- The `while (SDL_PollEvent(&event))` loop. `queue` lists the events
`SDL_PollEvent` delivers before it reports an empty queue. The result is
`Sum.inl` when the loop body returned `false` from the function, and
`Sum.inr hasEvent` when the loop ran to the end of the queue. -/
def pollLoop (ios : Bool) (self : SDLPlatform) :
    List SDL_Event → Bool → World → List SDL_Event → (Unit ⊕ Bool) × Iteration
  | [], hasEvent, w, handed => (.inr hasEvent, ⟨true, w, handed, []⟩)
  | event :: queue, _, w, handed =>
    let r := processEvent ios self event w
    if !r.1 then (.inl (), ⟨false, r.2, handed ++ [event], queue⟩)
    else pollLoop ios self queue true r.2 (handed ++ [event])

/-- Embedding of `SDLPlatform::mainLoopIteration`. `waitResult` is what
`SDL_WaitEventTimeout` delivers if it is called (`none` when it times out) and
`deactivatedFrameTime` the value of `Application::getDeactivatedFrameTime()`. -/
def mainLoopIteration {F : Type} (ops : FloatOps F) (ios : Bool) (self : SDLPlatform)
    (queue : List SDL_Event) (waitResult : Option SDL_Event) (deactivatedFrameTime : F)
    (w : World) : Iteration :=
  match pollLoop ios self queue false w [] with
  | (.inl (), it) => it
  | (.inr hasEvent, it) =>
    if !hasEvent && !it.world.activeEvent then
      let timeout := ops.toInt (ops.mulInt deactivatedFrameTime 1000)
      let w1 := { it.world with calls := it.world.calls ++ [.SDL_WaitEventTimeout timeout] }
      match waitResult with
      | some event =>
        let r := processEvent ios self event w1
        if !r.1 then { it with ret := false, world := r.2, handed := it.handed ++ [event] }
        else { it with ret := true, world := r.2, handed := it.handed ++ [event] }
      | none => { it with ret := true, world := w1 }
    else { it with ret := true }

/-- The call goes to the input manager. -/
def Effect.isInputManager : Effect → Bool
  | .updateKeyboardState _ => true
  | .updateMouseMotion _ => true
  | .updateMouseWheel _ => true
  | .updateControllerSensorsUpdate _ => true
  | _ => false

/-- The call fires the generic subscriber channel `otherEvent`. -/
def Effect.isOtherEvent : Effect → Bool
  | .otherEventFire _ => true
  | _ => false

/-- The call is the blocking timed wait. -/
def Effect.isWait : Effect → Bool
  | .SDL_WaitEventTimeout _ => true
  | _ => false

/-- The calls `processEvent` adds to the world for one event. -/
def eventCalls (ios : Bool) (self : SDLPlatform) (event : SDL_Event) : List Effect :=
  (processEvent ios self event ⟨false, []⟩).2.calls

/-! ## Descriptor slot allocation (console backend) -/

/-- Capacity of the image descriptor set, `CDescriptorSet<4096U>`. -/
def IMAGE_DESCRIPTOR_CAPACITY : Int := 4096

/-- The field of `SwitchVideoContext` used by slot allocation. -/
structure SwitchVideoContext where
  imageSlot : Int
  deriving DecidableEq, Repr

/-- Failures of the video context named by the specification. -/
inductive VideoError where
  | DescriptorExhausted
  deriving DecidableEq, Repr

/-- Modelled from the spec: the body of `SwitchVideoContext::allocateImageIndex`
(`switch_video.cpp`) is not among the sources, only its declaration and the
counter `imageSlot`. Allocation is "monotonic-counter based": the call hands out
the counter and advances it, and "fails with `DescriptorExhausted` once capacity
is reached". -/
def allocateImageIndex (self : SwitchVideoContext) :
    Except VideoError (Int × SwitchVideoContext) :=
  if self.imageSlot < IMAGE_DESCRIPTOR_CAPACITY then
    .ok (self.imageSlot, { self with imageSlot := self.imageSlot + 1 })
  else .error .DescriptorExhausted

/-- The indices returned by `n` successive calls of `allocateImageIndex` on one
video context; a failing call is fatal and ends the sequence. -/
def allocateImageIndices : Nat → SwitchVideoContext → List Int
  | 0, _ => []
  | n + 1, self =>
    match allocateImageIndex self with
    | .ok (index, self1) => index :: allocateImageIndices n self1
    | .error _ => []

/-! ## Theorems: window size limits -/

theorem toInt32_of_lt (n : Nat) (h : n < 2 ^ 31) : toInt32 n = (n : Int) := by
  have h2 : n % 2 ^ 32 = n := Nat.mod_eq_of_lt (by omega)
  unfold toInt32
  rw [h2, if_pos h]

/-- C1 (as stated, refuted): in the scenario min=(800,600), max=(400,300) the
request is not rejected as a whole: the call issues `SDL_SetWindowMinimumSize`
with (800,600), so the window's minimum size is set. -/
theorem setWindowSizeLimits_scenario_sets_minimum :
    setWindowSizeLimits 800 600 400 300 = [SDLCall.SDL_SetWindowMinimumSize 800 600] ∧
    ¬ (∀ c ∈ setWindowSizeLimits 800 600 400 300, c.isMinimumSize = false) := by
  decide

/-- C1 (amended): when the requested maximum is not greater than the requested
minimum in some dimension, the maximum size is not set, while the minimum-size
request is issued exactly when both minimum dimensions are non-zero; it carries
the `int` conversions of minW and minH, so it sets the minimum size to
(minW, minH) when both are below 2^31. The calls issued are that single
`SDL_SetWindowMinimumSize` request, or none at all. -/
theorem setWindowSizeLimits_max_le_min (minW minH maxW maxH : Nat)
    (h : maxW ≤ minW ∨ maxH ≤ minH) :
    (∀ c ∈ setWindowSizeLimits minW minH maxW maxH, c.isMaximumSize = false) ∧
    ((∃ c ∈ setWindowSizeLimits minW minH maxW maxH, c.isMinimumSize = true) ↔
      (0 < minW ∧ 0 < minH)) ∧
    setWindowSizeLimits minW minH maxW maxH =
      (if 0 < minW ∧ 0 < minH then
        [SDLCall.SDL_SetWindowMinimumSize (toInt32 minW) (toInt32 minH)] else []) ∧
    (minW < 2 ^ 31 → minH < 2 ^ 31 →
      setWindowSizeLimits minW minH maxW maxH =
        (if 0 < minW ∧ 0 < minH then
          [SDLCall.SDL_SetWindowMinimumSize minW minH] else [])) := by
  have hmax : ¬ ((maxW > 0 ∧ maxH > 0) ∧ (maxW > minW ∧ maxH > minH)) := by omega
  have hlist : setWindowSizeLimits minW minH maxW maxH =
      (if 0 < minW ∧ 0 < minH then
        [SDLCall.SDL_SetWindowMinimumSize (toInt32 minW) (toInt32 minH)] else []) := by
    by_cases hmin : minW > 0 ∧ minH > 0 <;> simp [setWindowSizeLimits, hmax, hmin]
  refine ⟨?_, ?_, hlist, ?_⟩
  · by_cases hmin : minW > 0 ∧ minH > 0 <;>
      simp [setWindowSizeLimits, hmax, hmin, SDLCall.isMaximumSize]
  · by_cases hmin : minW > 0 ∧ minH > 0 <;>
      simp [setWindowSizeLimits, hmax, hmin, SDLCall.isMinimumSize]
  · intro hW hH
    rw [hlist, toInt32_of_lt minW hW, toInt32_of_lt minH hH]

theorem setWindowSizeLimits_max_le_min_witness :
    (400 ≤ 800 ∨ 300 ≤ 600) ∧
    (∀ c ∈ setWindowSizeLimits 800 600 400 300, c.isMaximumSize = false) ∧
    ((∃ c ∈ setWindowSizeLimits 800 600 400 300, c.isMinimumSize = true) ↔
      (0 < 800 ∧ 0 < 600)) ∧
    setWindowSizeLimits 800 600 400 300 =
      (if 0 < 800 ∧ 0 < 600 then
        [SDLCall.SDL_SetWindowMinimumSize (toInt32 800) (toInt32 600)] else []) ∧
    (800 < 2 ^ 31 → 600 < 2 ^ 31 →
      setWindowSizeLimits 800 600 400 300 =
        (if 0 < 800 ∧ 0 < 600 then
          [SDLCall.SDL_SetWindowMinimumSize ((800 : Nat) : Int) ((600 : Nat) : Int)]
         else [])) :=
  ⟨by decide, setWindowSizeLimits_max_le_min 800 600 400 300 (by decide)⟩

/-- C2 (as stated, refuted): at min=(1,1), max=(4294967295,2147483648) the
condition maxW > 0, maxH > 0, maxW > minW, maxH > minH holds, yet the request
issued does not carry (4294967295, 2147483648): through the `int` parameters it
carries (-1, -2147483648). -/
theorem setWindowSizeLimits_maximum_wraps :
    (0 < 4294967295 ∧ 0 < 2147483648 ∧ 1 < 4294967295 ∧ 1 < 2147483648) ∧
    SDLCall.SDL_SetWindowMaximumSize 4294967295 2147483648 ∉
      setWindowSizeLimits 1 1 4294967295 2147483648 ∧
    setWindowSizeLimits 1 1 4294967295 2147483648 =
      [SDLCall.SDL_SetWindowMinimumSize 1 1,
       SDLCall.SDL_SetWindowMaximumSize (-1) (-2147483648)] := by
  decide

/-- C2 (amended): `setWindowSizeLimits` issues the maximum-size request if and only
if maxW > 0, maxH > 0, maxW > minW and maxH > minH, and the request carries the
`int` conversions of maxW and maxH; when both are below 2^31 it sets the maximum
size to (maxW, maxH) under exactly that condition. In every other case no
maximum-size request is issued at all. -/
theorem setWindowSizeLimits_maximum_iff (minW minH maxW maxH : Nat) :
    (SDLCall.SDL_SetWindowMaximumSize (toInt32 maxW) (toInt32 maxH) ∈
        setWindowSizeLimits minW minH maxW maxH ↔
      (0 < maxW ∧ 0 < maxH ∧ minW < maxW ∧ minH < maxH)) ∧
    (¬ (0 < maxW ∧ 0 < maxH ∧ minW < maxW ∧ minH < maxH) →
      ∀ c ∈ setWindowSizeLimits minW minH maxW maxH, c.isMaximumSize = false) ∧
    ((0 < maxW ∧ 0 < maxH ∧ minW < maxW ∧ minH < maxH) →
      ∀ c ∈ setWindowSizeLimits minW minH maxW maxH, c.isMaximumSize = true →
        c = SDLCall.SDL_SetWindowMaximumSize (toInt32 maxW) (toInt32 maxH)) ∧
    (maxW < 2 ^ 31 → maxH < 2 ^ 31 →
      SDLCall.SDL_SetWindowMaximumSize (toInt32 maxW) (toInt32 maxH) =
        SDLCall.SDL_SetWindowMaximumSize maxW maxH) ∧
    (maxW < 2 ^ 31 → maxH < 2 ^ 31 →
      (SDLCall.SDL_SetWindowMaximumSize maxW maxH ∈
          setWindowSizeLimits minW minH maxW maxH ↔
        (0 < maxW ∧ 0 < maxH ∧ minW < maxW ∧ minH < maxH))) := by
  have hiff : SDLCall.SDL_SetWindowMaximumSize (toInt32 maxW) (toInt32 maxH) ∈
        setWindowSizeLimits minW minH maxW maxH ↔
      (0 < maxW ∧ 0 < maxH ∧ minW < maxW ∧ minH < maxH) := by
    by_cases hmin : minW > 0 ∧ minH > 0 <;>
      by_cases hmax : (maxW > 0 ∧ maxH > 0) ∧ (maxW > minW ∧ maxH > minH) <;>
      simp [setWindowSizeLimits, hmin, hmax] <;> omega
  refine ⟨hiff, ?_, ?_, ?_, ?_⟩
  · intro hn
    have hmax : ¬ ((maxW > 0 ∧ maxH > 0) ∧ (maxW > minW ∧ maxH > minH)) := by
      intro h; exact hn ⟨h.1.1, h.1.2, h.2.1, h.2.2⟩
    by_cases hmin : minW > 0 ∧ minH > 0 <;>
      simp [setWindowSizeLimits, hmin, hmax, SDLCall.isMaximumSize]
  · intro hc
    have hmax : (maxW > 0 ∧ maxH > 0) ∧ (maxW > minW ∧ maxH > minH) :=
      ⟨⟨hc.1, hc.2.1⟩, hc.2.2.1, hc.2.2.2⟩
    by_cases hmin : minW > 0 ∧ minH > 0 <;>
      simp [setWindowSizeLimits, hmin, hmax, SDLCall.isMaximumSize]
  · intro hW hH
    rw [toInt32_of_lt maxW hW, toInt32_of_lt maxH hH]
  · intro hW hH
    rw [← toInt32_of_lt maxW hW, ← toInt32_of_lt maxH hH]
    exact hiff

theorem setWindowSizeLimits_maximum_iff_witness :
    SDLCall.SDL_SetWindowMaximumSize ((1920 : Nat) : Int) ((1080 : Nat) : Int) ∈
      setWindowSizeLimits 800 600 1920 1080 :=
  ((setWindowSizeLimits_maximum_iff 800 600 1920 1080).2.2.2.2 (by decide) (by decide)).2
    (by decide)

/-! ## Theorems: locale selection -/

theorem lookup_isSome_iff (m : List (String × String)) (key : String) :
    (m.lookup key).isSome = true ↔ key ∈ m.map Prod.fst := by
  induction m with
  | nil => simp
  | cons kv m ih =>
    obtain ⟨k, v⟩ := kv
    by_cases hk : key = k
    · subst hk; simp [List.lookup_cons]
    · have hb : (key == k) = false := by simpa using hk
      simp [List.lookup_cons, hb, ih, hk]

theorem mapCount_pos_iff (m : List (String × String)) (key : String) :
    mapCount m key > 0 ↔ key ∈ m.map Prod.fst := by
  rw [← lookup_isSome_iff]
  unfold mapCount
  by_cases h : (m.lookup key).isSome = true <;> simp [h]

theorem lookup_eq_some_mapIndex (m : List (String × String)) (key : String)
    (h : key ∈ m.map Prod.fst) : m.lookup key = some (mapIndex m key) := by
  have h1 := (lookup_isSome_iff m key).2 h
  unfold mapIndex
  cases hl : m.lookup key with
  | none => rw [hl] at h1; simp at h1
  | some v => rfl

theorem lookup_some_mem (m : List (String × String)) (key v : String)
    (h : m.lookup key = some v) : (key, v) ∈ m := by
  induction m with
  | nil => simp at h
  | cons kv m ih =>
    obtain ⟨k, w⟩ := kv
    by_cases hk : key = k
    · subst hk
      simp [List.lookup_cons] at h
      simp [h]
    · have hb : (key == k) = false := by simpa using hk
      simp only [List.lookup_cons, hb] at h
      exact List.mem_cons_of_mem _ (ih h)

/-- The loop returns the table value of the first entry whose key is a table
key, and the incoming locale when there is none. -/
theorem localeLoop_eq (K : LocaleNames) (ls : List SDL_Locale) (locale : String) :
    localeLoop K ls locale =
      match ls.find? (fun l => decide (localeKey l ∈ localeKeys K)) with
      | some l => mapIndex (localeMap K) (localeKey l)
      | none => locale := by
  induction ls with
  | nil => rfl
  | cons l rest ih =>
    by_cases h : localeKey l ∈ localeKeys K
    · have hc := (mapCount_pos_iff (localeMap K) (localeKey l)).2 h
      simp [localeLoop, hc, List.find?_cons, h]
    · have hc : ¬ mapCount (localeMap K) (localeKey l) > 0 :=
        fun hc => h ((mapCount_pos_iff (localeMap K) (localeKey l)).1 hc)
      simp only [localeLoop, hc, if_false, List.find?_cons, h, decide_False]
      exact ih

theorem ctor_locale_eq (K : LocaleNames) (self : SDLPlatform) (locales : Option (List SDL_Locale)) :
    (SDLPlatform.ctor K true K.LOCALE_AUTO locales self).locale =
      (if (localeLoop K (locales.getD []) self.locale).isEmpty then K.LOCALE_EN_US
       else localeLoop K (locales.getD []) self.locale) := by
  cases locales with
  | none => simp [SDLPlatform.ctor, localeLoop]
  | some ls =>
    cases ls with
    | nil => simp [SDLPlatform.ctor, localeLoop]
    | cons l rest => simp [SDLPlatform.ctor]

theorem localeKey_eq_ru_iff (l : SDL_Locale) :
    localeKey l = "ru" ↔ l.language = "ru" ∧ l.country = none := by
  obtain ⟨language, country⟩ := l
  cases country with
  | none => simp [localeKey]
  | some c =>
    simp only [localeKey, reduceCtorEq, and_false, iff_false]
    intro h
    have h1 := congrArg String.data h
    simp only [String.data_append] at h1
    have h2 : '_' ∈ language.data ++ ("_".data ++ c.data) := by simp
    rw [h1] at h2
    simp at h2

theorem ru_country_key_not_mem (K : LocaleNames) (c : String) :
    localeKey ⟨"ru", some c⟩ ∉ localeKeys K := by
  intro h
  simp only [localeKeys, localeMap, localeKey, List.map_cons, List.map_nil, List.mem_cons,
    List.mem_singleton, List.not_mem_nil, or_false] at h
  rcases h with h | h | h | h | h | h <;>
    · have h1 := congrArg String.data h
      simp [String.data_append] at h1

/-- C3: with `APP_LOCALE_DEFAULT == LOCALE_AUTO`, a successful `SDL_Init` and an
empty initial locale (the table values being non-empty strings), the constructor
sets the locale to the table value of the first entry of the preferred-locale list
whose key is a table key, and to `LOCALE_EN_US` when no entry has one; the list
["zh_CN","en_US"] selects `LOCALE_ZH_HANS`, a null or empty list the fallback. -/
theorem ctor_selects_first_mapped_locale (K : LocaleNames) (self : SDLPlatform)
    (locales : Option (List SDL_Locale)) (appLocaleDefault : String)
    (hauto : appLocaleDefault = K.LOCALE_AUTO) (hempty : self.locale = "")
    (hK : ∀ kv ∈ localeMap K, kv.2 ≠ "") :
    (SDLPlatform.ctor K true appLocaleDefault locales self).locale =
      (firstMapped K (locales.getD [])).getD K.LOCALE_EN_US ∧
    (SDLPlatform.ctor K true appLocaleDefault
        (some [⟨"zh", some "CN"⟩, ⟨"en", some "US"⟩]) self).locale = K.LOCALE_ZH_HANS ∧
    (K.LOCALE_ZH_HANS ≠ K.LOCALE_EN_US →
      (SDLPlatform.ctor K true appLocaleDefault
        (some [⟨"zh", some "CN"⟩, ⟨"en", some "US"⟩]) self).locale ≠ K.LOCALE_EN_US) ∧
    (SDLPlatform.ctor K true appLocaleDefault none self).locale = K.LOCALE_EN_US ∧
    (SDLPlatform.ctor K true appLocaleDefault (some []) self).locale = K.LOCALE_EN_US := by
  subst hauto
  have hvalue : ∀ key, key ∈ localeKeys K →
      ¬ (mapIndex (localeMap K) key).isEmpty = true := by
    intro key hkey hemp
    have hl := lookup_eq_some_mapIndex (localeMap K) key hkey
    have hm := lookup_some_mem (localeMap K) key _ hl
    exact hK _ hm ((String.isEmpty_iff _).1 hemp)
  have hzh : (SDLPlatform.ctor K true K.LOCALE_AUTO
      (some [⟨"zh", some "CN"⟩, ⟨"en", some "US"⟩]) self).locale = K.LOCALE_ZH_HANS := by
    have hmem : localeKey ⟨"zh", some "CN"⟩ ∈ localeKeys K := by
      simp [localeKeys, localeMap, localeKey]
    have hne := hvalue _ hmem
    have hidx : mapIndex (localeMap K) (localeKey ⟨"zh", some "CN"⟩) = K.LOCALE_ZH_HANS := by
      have hk : localeKey ⟨"zh", some "CN"⟩ = "zh_CN" := by decide
      rw [hk]
      simp [mapIndex, localeMap, List.lookup_cons]
    rw [ctor_locale_eq, localeLoop_eq]
    simp only [Option.getD_some, List.find?_cons, hmem, decide_True]
    rw [if_neg hne, hidx]
  refine ⟨?_, hzh, ?_, ?_, ?_⟩
  · have hres := ctor_locale_eq K self locales
    rw [localeLoop_eq] at hres
    unfold firstMapped
    cases hfind : (locales.getD []).find? (fun l => decide (localeKey l ∈ localeKeys K)) with
    | some l =>
      rw [hfind] at hres
      have hmem : localeKey l ∈ localeKeys K := by
        simpa using List.find?_some hfind
      simp only [] at hres
      rw [if_neg (hvalue _ hmem)] at hres
      rw [hres, Option.some_bind, lookup_eq_some_mapIndex _ _ hmem, Option.getD_some]
    | none =>
      rw [hfind] at hres
      simp only [] at hres
      rw [hres, hempty, Option.none_bind, Option.getD_none]
      exact if_pos (by decide)
  · intro hne
    rw [hzh]
    exact hne
  · rw [ctor_locale_eq, hempty]
    show (if ("" : String).isEmpty = true then K.LOCALE_EN_US else "") = K.LOCALE_EN_US
    exact if_pos (by decide)
  · rw [ctor_locale_eq, hempty]
    show (if ("" : String).isEmpty = true then K.LOCALE_EN_US else "") = K.LOCALE_EN_US
    exact if_pos (by decide)

theorem ctor_selects_first_mapped_locale_witness :
    "auto" = sampleLocaleNames.LOCALE_AUTO ∧ freshPlatform.locale = "" ∧
    (∀ kv ∈ localeMap sampleLocaleNames, kv.2 ≠ "") ∧
    (SDLPlatform.ctor sampleLocaleNames true "auto"
        (some [⟨"fr", some "FR"⟩, ⟨"ja", some "JP"⟩, ⟨"zh", some "CN"⟩]) freshPlatform).locale =
      (firstMapped sampleLocaleNames
        ((some [⟨"fr", some "FR"⟩, ⟨"ja", some "JP"⟩, ⟨"zh", some "CN"⟩] :
          Option (List SDL_Locale)).getD [])).getD sampleLocaleNames.LOCALE_EN_US ∧
    (firstMapped sampleLocaleNames
        [⟨"fr", some "FR"⟩, ⟨"ja", some "JP"⟩, ⟨"zh", some "CN"⟩]) = some "ja" ∧
    (SDLPlatform.ctor sampleLocaleNames true "auto"
        (some [⟨"zh", some "CN"⟩, ⟨"en", some "US"⟩]) freshPlatform).locale = "zh-Hans" :=
  ⟨rfl, rfl, by decide,
    (ctor_selects_first_mapped_locale sampleLocaleNames freshPlatform
      (some [⟨"fr", some "FR"⟩, ⟨"ja", some "JP"⟩, ⟨"zh", some "CN"⟩]) "auto" rfl rfl
      (by decide)).1,
    by decide,
    (ctor_selects_first_mapped_locale sampleLocaleNames freshPlatform
      (some [⟨"fr", some "FR"⟩, ⟨"ja", some "JP"⟩, ⟨"zh", some "CN"⟩]) "auto" rfl rfl
      (by decide)).2.1⟩

/-- C9: the loop's test succeeds only on exact equality of the entry's full key
with one of the six table keys; the key equals "ru" only for language "ru" with a
null country; an entry with language "ru" and any non-null country is passed over
by the loop, and a list made of that entry alone yields `LOCALE_EN_US`. -/
theorem locale_match_is_exact_key_equality (K : LocaleNames) :
    (∀ l : SDL_Locale, mapCount (localeMap K) (localeKey l) > 0 ↔
      (localeKey l = "zh_CN" ∨ localeKey l = "zh_TW" ∨ localeKey l = "ja_JP" ∨
        localeKey l = "ko_KR" ∨ localeKey l = "it_IT" ∨ localeKey l = "ru")) ∧
    (∀ l : SDL_Locale, localeKey l = "ru" ↔ l.language = "ru" ∧ l.country = none) ∧
    (∀ (c : String) (ls : List SDL_Locale) (locale : String),
      mapCount (localeMap K) (localeKey ⟨"ru", some c⟩) = 0 ∧
      localeLoop K (⟨"ru", some c⟩ :: ls) locale = localeLoop K ls locale) ∧
    (∀ (c : String) (self : SDLPlatform),
      (SDLPlatform.ctor K true K.LOCALE_AUTO (some [⟨"ru", some c⟩])
        { self with locale := "" }).locale = K.LOCALE_EN_US) := by
  have hskip : ∀ c : String, ¬ mapCount (localeMap K) (localeKey ⟨"ru", some c⟩) > 0 :=
    fun c hc => ru_country_key_not_mem K c ((mapCount_pos_iff _ _).1 hc)
  refine ⟨?_, localeKey_eq_ru_iff, ?_, ?_⟩
  · intro l
    rw [mapCount_pos_iff]
    simp [localeMap]
  · intro c ls locale
    refine ⟨by have := hskip c; omega, ?_⟩
    simp only [localeLoop, hskip c, if_false]
  · intro c self
    rw [ctor_locale_eq]
    simp only [Option.getD_some, localeLoop, hskip c, if_false]
    exact if_pos (by decide)

/-! ## Theorems: home directory -/

/-- C10: `getHomeDirectory(appName)` asks SDL for the preference path of `appName`
itself; the stored window title never influences the result, also when `appName`
is empty, so platforms differing in their title (indeed any two platforms) return
the same home directory for the same `appName`. -/
theorem getHomeDirectory_ignores_title
    (SDL_GetPrefPath : Option String → String → Option String)
    (self other : SDLPlatform) (title1 title2 appName : String) :
    getHomeDirectory SDL_GetPrefPath self appName = SDL_GetPrefPath none (c_str appName) ∧
    getHomeDirectory SDL_GetPrefPath (createWindow self title1) appName =
      getHomeDirectory SDL_GetPrefPath (createWindow self title2) appName ∧
    getHomeDirectory SDL_GetPrefPath (createWindow self title1) "" =
      SDL_GetPrefPath none "" ∧
    getHomeDirectory SDL_GetPrefPath self appName =
      getHomeDirectory SDL_GetPrefPath other appName := by
  refine ⟨rfl, rfl, ?_, rfl⟩
  show SDL_GetPrefPath none (c_str "") = SDL_GetPrefPath none ""
  have h : c_str "" = "" := by decide
  rw [h]

/-! ## Theorems: event pump -/

theorem processEvent_fst (ios : Bool) (self : SDLPlatform) (event : SDL_Event) (w : World) :
    (processEvent ios self event w).1 = !decide (event.type = .SDL_EVENT_QUIT) := by
  by_cases h : event.type = .SDL_EVENT_QUIT <;> simp [processEvent, h]

theorem processEvent_calls (ios : Bool) (self : SDLPlatform) (event : SDL_Event) (w : World) :
    (processEvent ios self event w).2.calls = w.calls ++ eventCalls ios self event := by
  obtain ⟨ty, payload⟩ := event
  cases ty <;> cases ios <;> cases hm : self.inputManager <;>
    simp [processEvent, eventCalls, callManager, hm]

theorem eventCalls_not_wait (ios : Bool) (self : SDLPlatform) (event : SDL_Event) :
    ∀ c ∈ eventCalls ios self event, c.isWait = false := by
  obtain ⟨ty, payload⟩ := event
  cases ty <;> cases ios <;> cases hm : self.inputManager <;>
    simp [processEvent, eventCalls, callManager, hm, Effect.isWait]

theorem processEvent_activeEvent (ios : Bool) (self : SDLPlatform) (event : SDL_Event)
    (w : World) (h : event.type ≠ .SDL_EVENT_QUIT) :
    (processEvent ios self event w).2.activeEvent = true := by
  simp [processEvent, h]

theorem pollLoop_no_quit (ios : Bool) (self : SDLPlatform) (queue : List SDL_Event)
    (hq : ∀ e ∈ queue, e.type ≠ .SDL_EVENT_QUIT) (hasEvent : Bool) (w : World)
    (handed : List SDL_Event) :
    ∃ it, pollLoop ios self queue hasEvent w handed = (.inr (hasEvent || !queue.isEmpty), it) ∧
      it.ret = true ∧ it.handed = handed ++ queue ∧ (queue = [] → it.world = w) ∧
      (∀ c ∈ it.world.calls, c.isWait = true → c ∈ w.calls) := by
  induction queue generalizing hasEvent w handed with
  | nil =>
    exact ⟨⟨true, w, handed, []⟩, by simp [pollLoop], rfl, by simp, fun _ => rfl,
      fun c hc _ => hc⟩
  | cons e queue ih =>
    have he : e.type ≠ .SDL_EVENT_QUIT := hq e (List.mem_cons_self _ _)
    have hrest : ∀ x ∈ queue, x.type ≠ .SDL_EVENT_QUIT :=
      fun x hx => hq x (List.mem_cons_of_mem _ hx)
    obtain ⟨it, h1, h2, h3, _, h5⟩ :=
      ih hrest true (processEvent ios self e w).2 (handed ++ [e])
    refine ⟨it, ?_, h2, by simp [h3], by simp, ?_⟩
    · simp [pollLoop, processEvent_fst, he, h1]
    · intro c hc hw
      have hc1 := h5 c hc hw
      rw [processEvent_calls, List.mem_append] at hc1
      rcases hc1 with hc1 | hc1
      · exact hc1
      · rw [eventCalls_not_wait ios self e c hc1] at hw
        exact absurd hw (by decide)

theorem pollLoop_quit (ios : Bool) (self : SDLPlatform) (queue : List SDL_Event)
    (hq : ∃ e ∈ queue, e.type = .SDL_EVENT_QUIT) (hasEvent : Bool) (w : World)
    (handed : List SDL_Event) :
    ∃ it, pollLoop ios self queue hasEvent w handed = (.inl (), it) ∧
      it.ret = false ∧ (∃ e ∈ it.handed, e.type = .SDL_EVENT_QUIT) ∧
      (∀ c ∈ it.world.calls, c.isWait = true → c ∈ w.calls) := by
  induction queue generalizing hasEvent w handed with
  | nil => simp at hq
  | cons e queue ih =>
    by_cases he : e.type = .SDL_EVENT_QUIT
    · refine ⟨⟨false, (processEvent ios self e w).2, handed ++ [e], queue⟩, ?_, rfl,
        ⟨e, by simp, he⟩, ?_⟩
      · simp [pollLoop, processEvent_fst, he]
      · intro c hc _
        simpa [processEvent, he] using hc
    · have hrest : ∃ x ∈ queue, x.type = .SDL_EVENT_QUIT := by
        obtain ⟨x, hx, hxq⟩ := hq
        rcases List.mem_cons.1 hx with rfl | hx
        · exact absurd hxq he
        · exact ⟨x, hx, hxq⟩
      obtain ⟨it, h1, h2, h3, h4⟩ :=
        ih hrest true (processEvent ios self e w).2 (handed ++ [e])
      refine ⟨it, ?_, h2, h3, ?_⟩
      · simp [pollLoop, processEvent_fst, he, h1]
      · intro c hc hw
        have hc1 := h4 c hc hw
        rw [processEvent_calls, List.mem_append] at hc1
        rcases hc1 with hc1 | hc1
        · exact hc1
        · rw [eventCalls_not_wait ios self e c hc1] at hw
          exact absurd hw (by decide)

theorem mainLoopIteration_quit_queued {F : Type} (ops : FloatOps F) (ios : Bool)
    (self : SDLPlatform) (queue : List SDL_Event) (waitResult : Option SDL_Event) (t : F)
    (w : World) (hq : ∃ e ∈ queue, e.type = .SDL_EVENT_QUIT) :
    (mainLoopIteration ops ios self queue waitResult t w).ret = false ∧
    (∃ e ∈ (mainLoopIteration ops ios self queue waitResult t w).handed,
      e.type = .SDL_EVENT_QUIT) ∧
    (∀ c ∈ (mainLoopIteration ops ios self queue waitResult t w).world.calls,
      c.isWait = true → c ∈ w.calls) := by
  obtain ⟨it, h1, h2, h3, h4⟩ := pollLoop_quit ios self queue hq false w []
  have hm : mainLoopIteration ops ios self queue waitResult t w = it := by
    simp [mainLoopIteration, h1]
  rw [hm]
  exact ⟨h2, h3, h4⟩

theorem mainLoopIteration_busy {F : Type} (ops : FloatOps F) (ios : Bool)
    (self : SDLPlatform) (queue : List SDL_Event) (waitResult : Option SDL_Event) (t : F)
    (w : World) (hq : ∀ e ∈ queue, e.type ≠ .SDL_EVENT_QUIT)
    (hb : queue ≠ [] ∨ w.activeEvent = true) :
    (mainLoopIteration ops ios self queue waitResult t w).ret = true ∧
    (mainLoopIteration ops ios self queue waitResult t w).handed = queue ∧
    (∀ c ∈ (mainLoopIteration ops ios self queue waitResult t w).world.calls,
      c.isWait = true → c ∈ w.calls) := by
  obtain ⟨it, h1, h2, h3, h4, h5⟩ := pollLoop_no_quit ios self queue hq false w []
  have hcond : (!(false || !queue.isEmpty) && !it.world.activeEvent) = false := by
    cases queue with
    | nil =>
      rcases hb with hb | hb
      · exact absurd rfl hb
      · rw [h4 rfl, hb]; rfl
    | cons e queue => rfl
  have hm : mainLoopIteration ops ios self queue waitResult t w = { it with ret := true } := by
    simp only [mainLoopIteration, h1]
    rw [hcond]
    rfl
  rw [hm]
  exact ⟨rfl, by simpa using h3, h5⟩

theorem mainLoopIteration_idle {F : Type} (ops : FloatOps F) (ios : Bool)
    (self : SDLPlatform) (waitResult : Option SDL_Event) (t : F)
    (w : World) (hw : w.activeEvent = false) :
    (mainLoopIteration ops ios self [] waitResult t w).handed = waitResult.toList ∧
    (mainLoopIteration ops ios self [] waitResult t w).ret =
      (match waitResult with
        | some e => !decide (e.type = .SDL_EVENT_QUIT)
        | none => true) ∧
    (mainLoopIteration ops ios self [] waitResult t w).world.calls =
      w.calls ++ [Effect.SDL_WaitEventTimeout (ops.toInt (ops.mulInt t 1000))] ++
        (match waitResult with
          | some e => eventCalls ios self e
          | none => []) := by
  cases waitResult with
  | none => simp [mainLoopIteration, pollLoop, hw]
  | some e =>
    by_cases he : e.type = .SDL_EVENT_QUIT
    · simp [mainLoopIteration, pollLoop, hw, processEvent_fst, he, processEvent_calls]
    · simp [mainLoopIteration, pollLoop, hw, processEvent_fst, he, processEvent_calls]

/-- C4: `processEvent` returns false exactly for `SDL_EVENT_QUIT`, and
`mainLoopIteration` returns false if and only if an `SDL_EVENT_QUIT` event is handed
to `processEvent` during the iteration, that is, if and only if a quit event is
among the polled events or the timed wait (made on an empty queue without recent
activity) delivers one; with an empty queue and a wait that times out it returns
true. -/
theorem mainLoopIteration_false_iff_quit_handed {F : Type} (ops : FloatOps F) (ios : Bool)
    (self : SDLPlatform) (queue : List SDL_Event) (waitResult : Option SDL_Event) (t : F)
    (w : World) :
    (∀ (e : SDL_Event) (w0 : World),
      (processEvent ios self e w0).1 = false ↔ e.type = .SDL_EVENT_QUIT) ∧
    ((mainLoopIteration ops ios self queue waitResult t w).ret = false ↔
      ∃ e ∈ (mainLoopIteration ops ios self queue waitResult t w).handed,
        e.type = .SDL_EVENT_QUIT) ∧
    ((mainLoopIteration ops ios self queue waitResult t w).ret = false ↔
      ((∃ e ∈ queue, e.type = .SDL_EVENT_QUIT) ∨
        (queue = [] ∧ w.activeEvent = false ∧
          ∃ e, waitResult = some e ∧ e.type = .SDL_EVENT_QUIT))) ∧
    (mainLoopIteration ops ios self [] none t w).ret = true := by
  refine ⟨?_, ?_, ?_, ?_⟩
  · intro e w0
    rw [processEvent_fst]
    by_cases h : e.type = .SDL_EVENT_QUIT <;> simp [h]
  · by_cases hq : ∃ e ∈ queue, e.type = .SDL_EVENT_QUIT
    · obtain ⟨h1, h2, _⟩ := mainLoopIteration_quit_queued ops ios self queue waitResult t w hq
      exact ⟨fun _ => h2, fun _ => h1⟩
    · have hq1 : ∀ e ∈ queue, e.type ≠ .SDL_EVENT_QUIT := fun e he h => hq ⟨e, he, h⟩
      by_cases hb : queue ≠ [] ∨ w.activeEvent = true
      · obtain ⟨h1, h2, _⟩ := mainLoopIteration_busy ops ios self queue waitResult t w hq1 hb
        rw [h1, h2]
        simpa using hq1
      · have hnil : queue = [] := by
          by_contra h; exact hb (Or.inl h)
        have hact : w.activeEvent = false := by
          cases h : w.activeEvent with
          | false => rfl
          | true => exact absurd (Or.inr h) hb
        subst hnil
        obtain ⟨h1, h2, _⟩ := mainLoopIteration_idle ops ios self waitResult t w hact
        rw [h1, h2]
        cases waitResult with
        | none => simp
        | some e => by_cases he : e.type = .SDL_EVENT_QUIT <;> simp [he]
  · by_cases hq : ∃ e ∈ queue, e.type = .SDL_EVENT_QUIT
    · obtain ⟨h1, _, _⟩ := mainLoopIteration_quit_queued ops ios self queue waitResult t w hq
      exact ⟨fun _ => Or.inl hq, fun _ => h1⟩
    · have hq1 : ∀ e ∈ queue, e.type ≠ .SDL_EVENT_QUIT := fun e he h => hq ⟨e, he, h⟩
      by_cases hb : queue ≠ [] ∨ w.activeEvent = true
      · obtain ⟨h1, _, _⟩ := mainLoopIteration_busy ops ios self queue waitResult t w hq1 hb
        rw [h1]
        constructor
        · intro h; exact absurd h (by decide)
        · rintro (h | ⟨h1, h2, _⟩)
          · exact absurd h hq
          · rcases hb with hb | hb
            · exact absurd h1 hb
            · rw [h2] at hb; exact absurd hb (by decide)
      · have hnil : queue = [] := by
          by_contra h; exact hb (Or.inl h)
        have hact : w.activeEvent = false := by
          cases h : w.activeEvent with
          | false => rfl
          | true => exact absurd (Or.inr h) hb
        subst hnil
        obtain ⟨_, h2, _⟩ := mainLoopIteration_idle ops ios self waitResult t w hact
        rw [h2]
        cases waitResult with
        | none => simp
        | some e => by_cases he : e.type = .SDL_EVENT_QUIT <;> simp [he, hact]
  · by_cases hact : w.activeEvent = false
    · exact (mainLoopIteration_idle ops ios self none t w hact).2.1
    · have hb : ([] : List SDL_Event) ≠ [] ∨ w.activeEvent = true := by
        right; simpa using hact
      exact (mainLoopIteration_busy ops ios self [] none t w (by simp) hb).1

/-- C6: in an iteration started with activity flag `active`, `mainLoopIteration`
makes the blocking `SDL_WaitEventTimeout` call if and only if the poll loop
delivered no event and the flag is false; it makes it once, with the timeout
`(int)(getDeactivatedFrameTime() * 1000)`, and otherwise makes no wait call. -/
theorem mainLoopIteration_waits_iff_idle {F : Type} (ops : FloatOps F) (ios : Bool)
    (self : SDLPlatform) (queue : List SDL_Event) (waitResult : Option SDL_Event) (t : F)
    (active : Bool) :
    ((∃ c ∈ (mainLoopIteration ops ios self queue waitResult t ⟨active, []⟩).world.calls,
        c.isWait = true) ↔ (queue = [] ∧ active = false)) ∧
    (mainLoopIteration ops ios self queue waitResult t ⟨active, []⟩).world.calls.filter
        Effect.isWait =
      (if queue = [] ∧ active = false then
        [Effect.SDL_WaitEventTimeout (ops.toInt (ops.mulInt t 1000))] else []) := by
  have hnone : (queue ≠ [] ∨ active = true) →
      ∀ c ∈ (mainLoopIteration ops ios self queue waitResult t ⟨active, []⟩).world.calls,
        ¬ c.isWait = true := by
    intro hb c hc hw
    by_cases hq : ∃ e ∈ queue, e.type = .SDL_EVENT_QUIT
    · have := (mainLoopIteration_quit_queued ops ios self queue waitResult t
        ⟨active, []⟩ hq).2.2 c hc hw
      simp at this
    · have hq1 : ∀ e ∈ queue, e.type ≠ .SDL_EVENT_QUIT := fun e he h => hq ⟨e, he, h⟩
      have := (mainLoopIteration_busy ops ios self queue waitResult t
        ⟨active, []⟩ hq1 hb).2.2 c hc hw
      simp at this
  by_cases hidle : queue = [] ∧ active = false
  · obtain ⟨hnil, hact⟩ := hidle
    subst hnil
    subst hact
    have hcalls := (mainLoopIteration_idle ops ios self waitResult t ⟨false, []⟩ rfl).2.2
    have hfilter : ∀ l : List Effect, (∀ c ∈ l, c.isWait = false) →
        l.filter Effect.isWait = [] := by
      intro l hl
      exact List.filter_eq_nil_iff.2 (fun c hc => by simp [hl c hc])
    rw [hcalls]
    constructor
    · simp [Effect.isWait]
    · cases waitResult with
      | none => simp [Effect.isWait]
      | some e =>
        simp [List.filter_append, Effect.isWait, hfilter _ (eventCalls_not_wait ios self e)]
  · have hb : queue ≠ [] ∨ active = true := by
      by_contra h
      push_neg at h
      exact hidle ⟨h.1, by simpa using h.2⟩
    have hn := hnone hb
    constructor
    · constructor
      · rintro ⟨c, hc, hw⟩; exact absurd hw (hn c hc)
      · intro h; exact absurd h hidle
    · rw [if_neg hidle]
      exact List.filter_eq_nil_iff.2 hn

/-- C5: in the non-iOS build an event is fired on the generic channel `otherEvent`
exactly when its type is none of QUIT, KEY_DOWN, KEY_UP, MOUSE_MOTION, MOUSE_WHEEL,
GAMEPAD_SENSOR_UPDATE and POLL_SENTINEL, and then that is the only call; key,
mouse-motion, wheel and sensor events cause input-manager calls only (one when a
manager is present); no event reaches more than one sink and a quit event reaches
none. The calls are appended to whatever the world already recorded. -/
theorem processEvent_sinks (self : SDLPlatform) (event : SDL_Event) (w : World) :
    ((∃ c ∈ eventCalls false self event, c.isOtherEvent = true) ↔
      (event.type ≠ .SDL_EVENT_QUIT ∧ event.type ≠ .SDL_EVENT_KEY_DOWN ∧
       event.type ≠ .SDL_EVENT_KEY_UP ∧ event.type ≠ .SDL_EVENT_MOUSE_MOTION ∧
       event.type ≠ .SDL_EVENT_MOUSE_WHEEL ∧ event.type ≠ .SDL_EVENT_GAMEPAD_SENSOR_UPDATE ∧
       event.type ≠ .SDL_EVENT_POLL_SENTINEL)) ∧
    ((∃ c ∈ eventCalls false self event, c.isOtherEvent = true) →
      eventCalls false self event = [Effect.otherEventFire event]) ∧
    ((event.type = .SDL_EVENT_KEY_DOWN ∨ event.type = .SDL_EVENT_KEY_UP) →
      eventCalls false self event =
        (if self.inputManager then [Effect.updateKeyboardState event] else [])) ∧
    (event.type = .SDL_EVENT_MOUSE_MOTION →
      eventCalls false self event =
        (if self.inputManager then [Effect.updateMouseMotion event] else [])) ∧
    (event.type = .SDL_EVENT_MOUSE_WHEEL →
      eventCalls false self event =
        (if self.inputManager then [Effect.updateMouseWheel event] else [])) ∧
    (event.type = .SDL_EVENT_GAMEPAD_SENSOR_UPDATE →
      eventCalls false self event =
        (if self.inputManager then [Effect.updateControllerSensorsUpdate event] else [])) ∧
    (event.type = .SDL_EVENT_QUIT → eventCalls false self event = []) ∧
    (eventCalls false self event).length ≤ 1 ∧
    ¬ ((∃ c ∈ eventCalls false self event, c.isInputManager = true) ∧
       (∃ c ∈ eventCalls false self event, c.isOtherEvent = true)) ∧
    (processEvent false self event w).2.calls = w.calls ++ eventCalls false self event := by
  refine ⟨?_, ?_, ?_, ?_, ?_, ?_, ?_, ?_, ?_, processEvent_calls false self event w⟩ <;>
    obtain ⟨ty, payload⟩ := event <;>
    cases ty <;> cases hm : self.inputManager <;>
    simp [processEvent, eventCalls, callManager, hm, Effect.isOtherEvent, Effect.isInputManager]

/-- C8: the second `SDL_EVENT_MOUSE_MOTION` arm is redundant: for every event,
build and state, `processEvent` returns the same flag and world as the dispatch
with a single mouse-motion arm, and a mouse-motion event adds exactly one
`updateMouseMotion` call when an input manager is present. -/
theorem processEvent_eq_single_arm (ios : Bool) (self : SDLPlatform) (event : SDL_Event)
    (w : World) :
    processEvent ios self event w = processEventSingleArm ios self event w ∧
    (event.type = .SDL_EVENT_MOUSE_MOTION → self.inputManager = true →
      (processEvent ios self event w).2.calls = w.calls ++ [Effect.updateMouseMotion event] ∧
      (eventCalls ios self event).count (Effect.updateMouseMotion event) = 1) := by
  constructor
  · unfold processEvent processEventSingleArm
    by_cases h : event.type = .SDL_EVENT_MOUSE_MOTION <;> simp [h]
  · intro h hm
    rw [processEvent_calls]
    have hcalls : eventCalls ios self event = [Effect.updateMouseMotion event] := by
      simp [eventCalls, processEvent, callManager, h, hm]
    rw [hcalls]
    simp

/-! ## Theorems: descriptor slot allocation -/

theorem allocateImageIndices_bounds (n : Nat) (self : SwitchVideoContext) :
    ∀ i ∈ allocateImageIndices n self, self.imageSlot ≤ i ∧ i < IMAGE_DESCRIPTOR_CAPACITY := by
  induction n generalizing self with
  | zero => simp [allocateImageIndices]
  | succ n ih =>
    by_cases h : self.imageSlot < IMAGE_DESCRIPTOR_CAPACITY
    · intro i hi
      simp only [allocateImageIndices, allocateImageIndex, h, if_true, List.mem_cons] at hi
      rcases hi with rfl | hi
      · exact ⟨le_refl _, h⟩
      · have := ih _ i hi
        simp only at this
        exact ⟨by omega, this.2⟩
    · simp [allocateImageIndices, allocateImageIndex, h]

theorem allocateImageIndices_length (n : Nat) (self : SwitchVideoContext) :
    self.imageSlot + n ≤ 4096 → (allocateImageIndices n self).length = n := by
  induction n generalizing self with
  | zero => intro _; rfl
  | succ n ih =>
    intro h
    have hlt : self.imageSlot < IMAGE_DESCRIPTOR_CAPACITY := by
      unfold IMAGE_DESCRIPTOR_CAPACITY; omega
    simp only [allocateImageIndices, allocateImageIndex, hlt, if_true, List.length_cons]
    rw [ih]
    simp only
    omega

/-- C7: for every number of successive `allocateImageIndex` calls on one video
context, from any counter value, the returned slot indices are strictly
increasing; hence no index is returned twice, and each lies below the 4096-entry
capacity. -/
theorem allocateImageIndices_strictly_increasing (n : Nat) (self : SwitchVideoContext) :
    (allocateImageIndices n self).Pairwise (fun a b => a < b) ∧
    (allocateImageIndices n self).Nodup ∧
    (∀ i ∈ allocateImageIndices n self, i < 4096) ∧
    (self.imageSlot + n ≤ 4096 → (allocateImageIndices n self).length = n) ∧
    allocateImageIndices 3 ⟨0⟩ = [0, 1, 2] ∧
    allocateImageIndices 3 ⟨4094⟩ = [4094, 4095] := by
  have hp : ∀ (n : Nat) (self : SwitchVideoContext),
      (allocateImageIndices n self).Pairwise (fun a b => a < b) := by
    intro n
    induction n with
    | zero => intro self; simp [allocateImageIndices]
    | succ n ih =>
      intro self
      by_cases h : self.imageSlot < IMAGE_DESCRIPTOR_CAPACITY
      · simp only [allocateImageIndices, allocateImageIndex, h, if_true, List.pairwise_cons]
        refine ⟨?_, ih _⟩
        intro i hi
        have := (allocateImageIndices_bounds n _ i hi).1
        simp only at this
        omega
      · simp [allocateImageIndices, allocateImageIndex, h]
  refine ⟨hp n self, ?_, fun i hi => (allocateImageIndices_bounds n self i hi).2,
    allocateImageIndices_length n self, by decide, by decide⟩
  exact (hp n self).imp (fun h => ne_of_lt h)

end brls
